import Mathlib

/-!
Verification development for the scrobble analytics engine.

The definitions below are a shallow embedding of the analyzer: events carry a
textual UTC timestamp in the fixed format DD Mon YYYY, HH:MM; parsing yields an
absolute minute count (minutes since 01 Jan 0001, 00:00) so that comparisons,
calendar-day extraction and hour extraction are plain integer arithmetic.
Counter based ranking is embedded as counting in first-seen order followed by a
stable sort by count descending, which is the observable behaviour of the
library counter used by the source.
-/

/-- Event record produced by the loader: artist, album and track names plus the
textual UTC timestamp. Fields not used by any analytics operation are kept as
plain strings. -/
structure Scrobble where
  artist : String
  album : String
  track : String
  utcTime : String
  uts : String
  url : String
  deriving DecidableEq, Repr

/-- Numeric value of a digit run. -/
def digitsToNat (ds : List Char) : Nat :=
  ds.foldl (fun a c => a * 10 + (c.toNat - 48)) 0

/-- Maximal leading digit run of a character list, with the remainder. -/
def takeDigits : List Char → List Char × List Char
  | [] => ([], [])
  | c :: cs =>
    if c.isDigit then
      let r := takeDigits cs
      (c :: r.1, r.2)
    else ([], c :: cs)

/-- Drop leading whitespace. -/
def dropWs : List Char → List Char
  | [] => []
  | c :: cs => if c.isWhitespace then dropWs cs else c :: cs

/-- Require at least one whitespace character, then skip the whole run. -/
def skipWs1 : List Char → Option (List Char)
  | [] => none
  | c :: cs => if c.isWhitespace then some (dropWs cs) else none

/-- Day-of-month field: one or two digits in range 1 to 31, or a space padded
single digit, exactly the alternatives accepted by the source's time parser. -/
def parseDayField (l : List Char) : Option (Nat × List Char) :=
  match takeDigits l with
  | ([], _) =>
    match l with
    | ' ' :: c :: rest =>
      if c.isDigit ∧ c ≠ '0' then some (c.toNat - 48, rest) else none
    | _ => none
  | ([c], rest) => if c ≠ '0' then some (c.toNat - 48, rest) else none
  | ([c1, c2], rest) =>
    let v := digitsToNat [c1, c2]
    if 1 ≤ v ∧ v ≤ 31 then some (v, rest) else none
  | _ => none

/-- Month number for a lowercased three letter abbreviation. -/
def monthFromAbbrev (s : String) : Option Nat :=
  if s = "jan" then some 1
  else if s = "feb" then some 2
  else if s = "mar" then some 3
  else if s = "apr" then some 4
  else if s = "may" then some 5
  else if s = "jun" then some 6
  else if s = "jul" then some 7
  else if s = "aug" then some 8
  else if s = "sep" then some 9
  else if s = "oct" then some 10
  else if s = "nov" then some 11
  else if s = "dec" then some 12
  else none

/-- Month field: three letters matched case-insensitively. -/
def parseMonthField : List Char → Option (Nat × List Char)
  | a :: b :: c :: rest =>
    match monthFromAbbrev (String.mk [a.toLower, b.toLower, c.toLower]) with
    | some m => some (m, rest)
    | none => none
  | _ => none

/-- Year field: exactly four digits. -/
def parseYearField (l : List Char) : Option (Nat × List Char) :=
  match takeDigits l with
  | (ds, rest) => if ds.length = 4 then some (digitsToNat ds, rest) else none

/-- Hour field: one digit, or two digits up to 23. -/
def parseHourField (l : List Char) : Option (Nat × List Char) :=
  match takeDigits l with
  | ([c], rest) => some (c.toNat - 48, rest)
  | ([c1, c2], rest) =>
    let v := digitsToNat [c1, c2]
    if v ≤ 23 then some (v, rest) else none
  | _ => none

/-- Minute field: one digit, or two digits up to 59. -/
def parseMinuteField (l : List Char) : Option (Nat × List Char) :=
  match takeDigits l with
  | ([c], rest) => some (c.toNat - 48, rest)
  | ([c1, c2], rest) =>
    let v := digitsToNat [c1, c2]
    if v ≤ 59 then some (v, rest) else none
  | _ => none

/-- Gregorian leap year test. -/
def isLeap (y : Nat) : Bool :=
  y % 4 == 0 && (y % 100 != 0 || y % 400 == 0)

/-- Cumulative day count of the months before month m in a common year. -/
def monthPrefixDays (m : Nat) : Nat :=
  [0, 31, 59, 90, 120, 151, 181, 212, 243, 273, 304, 334].getD (m - 1) 0

/-- Days in the years strictly before year y of the proleptic Gregorian
calendar, counting from year 1. -/
def daysBeforeYear (y : Nat) : Nat :=
  365 * (y - 1) + ((y - 1) / 4 + (y - 1) / 400 - (y - 1) / 100)

/-- Days before month m inside year y. -/
def daysBeforeMonth (y m : Nat) : Nat :=
  monthPrefixDays m + (if 3 ≤ m ∧ isLeap y then 1 else 0)

/-- Length of month m in year y. -/
def daysInMonth (y m : Nat) : Nat :=
  if m = 2 then (if isLeap y then 29 else 28)
  else if m = 4 ∨ m = 6 ∨ m = 9 ∨ m = 11 then 30
  else 31

/-- Absolute day number of a civil date, with 01 Jan 0001 as day zero. -/
def civilToDay (y m d : Nat) : Nat :=
  daysBeforeYear y + daysBeforeMonth y m + (d - 1)

/-- Parser for the fixed timestamp format DD Mon YYYY, HH:MM. The result is
the absolute minute count of the instant; parsing failure, including range
errors in the date, yields none, mirroring the source's parse helper which
returns the none value instead of raising. -/
def parseDate (s : String) : Option Int :=
  if s = "" then none
  else
    match parseDayField s.toList with
    | none => none
    | some (d, r1) =>
      match skipWs1 r1 with
      | none => none
      | some r2 =>
        match parseMonthField r2 with
        | none => none
        | some (m, r3) =>
          match skipWs1 r3 with
          | none => none
          | some r4 =>
            match parseYearField r4 with
            | none => none
            | some (y, r5) =>
              match r5 with
              | ',' :: r6 =>
                match skipWs1 r6 with
                | none => none
                | some r7 =>
                  match parseHourField r7 with
                  | none => none
                  | some (hh, r8) =>
                    match r8 with
                    | ':' :: r9 =>
                      match parseMinuteField r9 with
                      | none => none
                      | some (mi, r10) =>
                        if r10 = [] ∧ 1 ≤ y ∧ d ≤ daysInMonth y m then
                          some ((civilToDay y m d : Int) * 1440 + hh * 60 + mi)
                        else none
                    | _ => none
              | _ => none

/-- Minute count just past the last representable civil instant
(31 Dec 9999, 23:59); conversions landing outside the representable range are
rejected, mirroring the conversion helper of the source which swallows the
overflow and returns the none value. -/
def minuteLimit : Int := 3652059 * 1440

/-- Conversion of a textual UTC timestamp to local civil time with the run's
single fixed offset, in minutes. -/
def toLocal (offset : Int) (s : String) : Option Int :=
  match parseDate s with
  | none => none
  | some t =>
    let l := t + offset
    if 0 ≤ l ∧ l < minuteLimit then some l else none

/-- Calendar day of a local instant. -/
def localDay (m : Int) : Int := Int.ediv m 1440

/-- Hour of day of a local instant. -/
def localHour (m : Int) : Int := Int.ediv (Int.emod m 1440) 60

/-- Counting pass of the library counter: occurrence counts per key in
first-seen order. -/
def bump {K : Type} [DecidableEq K] (k : K) : List (K × Nat) → List (K × Nat)
  | [] => [(k, 1)]
  | e :: rest => if e.1 = k then (e.1, e.2 + 1) :: rest else e :: bump k rest

/-- Occurrence counts of a key list, keys in first-seen order. -/
def countKeys {K : Type} [DecidableEq K] (ks : List K) : List (K × Nat) :=
  ks.foldl (fun acc k => bump k acc) []

/-- Stable insertion into a list sorted by count descending: the inserted
element goes before any element of equal count, so earlier input elements stay
first among ties. -/
def insertDesc {K : Type} (x : K × Nat) : List (K × Nat) → List (K × Nat)
  | [] => [x]
  | y :: ys => if x.2 < y.2 then y :: insertDesc x ys else x :: y :: ys

/-- Stable sort by count descending. -/
def sortCountDesc {K : Type} : List (K × Nat) → List (K × Nat)
  | [] => []
  | x :: xs => insertDesc x (sortCountDesc xs)

/-- The library counter's ranked listing: counts in first-seen order, stably
sorted by count descending, truncated to n entries. -/
def mostCommon {K : Type} [DecidableEq K] (ks : List K) (n : Nat) : List (K × Nat) :=
  (sortCountDesc (countKeys ks)).take n

/-- Index of the first occurrence of a key in a list. -/
def firstIdx {K : Type} [DecidableEq K] : List K → K → Nat
  | [], _ => 0
  | a :: rest, k => if a = k then 0 else firstIdx rest k + 1

/-- Keys of a list in first-seen order, each kept once. -/
def seenKeys {K : Type} [DecidableEq K] (ks : List K) : List K :=
  ks.foldl (fun acc k => if k ∈ acc then acc else acc ++ [k]) []

/-- Truthiness of an optional string parameter: absent and empty both count as
not given. -/
def optTruthy : Option String → Bool
  | none => false
  | some s => !(s == "")

/-- Date range filter of the ranking operations: with no bound given the list
is returned as is; otherwise an event is kept when its timestamp parses and
violates neither given bound. -/
def filter_scrobbles_by_date (ss : List Scrobble) (fromDate toDate : Option String) :
    List Scrobble :=
  if !optTruthy fromDate && !optTruthy toDate then ss
  else
    let fromDt := if optTruthy fromDate then parseDate (fromDate.getD "") else none
    let toDt := if optTruthy toDate then parseDate (toDate.getD "") else none
    ss.filter (fun s =>
      match parseDate s.utcTime with
      | none => false
      | some dt =>
        (match fromDt with
         | some f => !(decide (dt < f))
         | none => true) &&
        (match toDt with
         | some u => !(decide (u < dt))
         | none => true))

/-- Key scan of the artist ranking: filtered events with a non-empty artist,
in list order. -/
def artistKeyList (ss : List Scrobble) (fromDate toDate : Option String) : List String :=
  ((filter_scrobbles_by_date ss fromDate toDate).filter
    (fun s => !(s.artist == ""))).map (fun s => s.artist)

/-- Key scan of the album ranking: filtered events with a non-empty album. -/
def albumKeyList (ss : List Scrobble) (fromDate toDate : Option String) :
    List (String × String) :=
  ((filter_scrobbles_by_date ss fromDate toDate).filter
    (fun s => !(s.album == ""))).map (fun s => (s.artist, s.album))

/-- Key scan of the track ranking: filtered events with a non-empty track. -/
def trackKeyList (ss : List Scrobble) (fromDate toDate : Option String) :
    List (String × String) :=
  ((filter_scrobbles_by_date ss fromDate toDate).filter
    (fun s => !(s.track == ""))).map (fun s => (s.artist, s.track))

/-- Top n artists by play count. -/
def get_top_artists (ss : List Scrobble) (n : Nat) (fromDate toDate : Option String) :
    List (String × Nat) :=
  mostCommon (artistKeyList ss fromDate toDate) n

/-- Top n albums by play count. -/
def get_top_albums (ss : List Scrobble) (n : Nat) (fromDate toDate : Option String) :
    List ((String × String) × Nat) :=
  mostCommon (albumKeyList ss fromDate toDate) n

/-- Top n tracks by play count. -/
def get_top_tracks (ss : List Scrobble) (n : Nat) (fromDate toDate : Option String) :
    List ((String × String) × Nat) :=
  mostCommon (trackKeyList ss fromDate toDate) n

/-- Exact artist and track match used by the peak-day query. -/
def matchesTrack (artist track : String) (s : Scrobble) : Bool :=
  s.artist == artist && s.track == track

/-- Local calendar days of the events whose timestamp converts, one entry per
event, in list order. -/
def dayListOf (offset : Int) (ss : List Scrobble) : List Int :=
  ss.filterMap (fun s => (toLocal offset s.utcTime).map localDay)

/-- Peak listening day of one track: the local day with the most plays among
the matching events that could be placed in time, together with that day's
play count and the total number of matching events. -/
def get_peak_day_for_track (offset : Int) (ss : List Scrobble) (artist track : String) :
    Option (Int × Nat × Nat) :=
  let tr := ss.filter (matchesTrack artist track)
  if tr.isEmpty then none
  else
    let days := dayListOf offset tr
    if days.isEmpty then none
    else
      match (mostCommon days 1).head? with
      | some dc => some (dc.1, dc.2, tr.length)
      | none => none

/-- Top n local days by total play count. -/
def get_top_days_overall (offset : Int) (ss : List Scrobble) (n : Nat) :
    Option (List (Int × Nat)) :=
  if ss.isEmpty then none
  else
    let days := dayListOf offset ss
    if days.isEmpty then none
    else some (mostCommon days n)

/-- Loop state of the consecutive-day streak scan. -/
structure StreakState where
  maxStreak : Nat
  maxStart : Option Int
  maxEnd : Option Int
  curStreak : Nat
  curStart : Option Int
  prevDay : Option Int
  deriving DecidableEq, Repr

/-- Initial streak scan state. -/
def streakInit : StreakState := ⟨0, none, none, 0, none, none⟩

/-- One step of the streak scan over the sorted day sequence: extend the
current run on a gap of exactly one day, otherwise close it, keeping the best
run seen so far. -/
def streakStep (st : StreakState) (d : Int) : StreakState :=
  match st.prevDay with
  | none =>
    { st with curStreak := 1, curStart := some d, prevDay := some d }
  | some p =>
    if d - p = 1 then
      { st with curStreak := st.curStreak + 1, prevDay := some d }
    else
      if st.maxStreak < st.curStreak then
        { maxStreak := st.curStreak, maxStart := st.curStart, maxEnd := some p,
          curStreak := 1, curStart := some d, prevDay := some d }
      else
        { st with curStreak := 1, curStart := some d, prevDay := some d }

/-- Close the final run of the streak scan. -/
def streakFinal (st : StreakState) : Nat × Option Int × Option Int :=
  if st.maxStreak < st.curStreak then (st.curStreak, st.curStart, st.prevDay)
  else (st.maxStreak, st.maxStart, st.maxEnd)

/-- Longest run of consecutive days in a day sequence, with its first and last
day. -/
def computeStreak (days : List Int) : Nat × Option Int × Option Int :=
  streakFinal (days.foldl streakStep streakInit)

/-- Day contributed by one event to the streak grouping of a track key:
requires a convertible timestamp, non-empty track and artist, and the key. -/
def trackDayRaw (offset : Int) (key : String × String) (s : Scrobble) : Option Int :=
  match toLocal offset s.utcTime with
  | none => none
  | some m =>
    if !(s.track == "") && !(s.artist == "") && s.artist == key.1 && s.track == key.2 then
      some (localDay m)
    else none

/-- Sorted set of distinct local days on which a track key had an event. -/
def trackDaysOf (offset : Int) (ss : List Scrobble) (key : String × String) : List Int :=
  List.insertionSort (fun a b => a ≤ b) (ss.filterMap (trackDayRaw offset key)).dedup

/-- Day contributed by one event to the streak grouping of an artist key:
requires a convertible timestamp and a non-empty artist matching the key. -/
def artistDayRaw (offset : Int) (key : String) (s : Scrobble) : Option Int :=
  match toLocal offset s.utcTime with
  | none => none
  | some m =>
    if !(s.artist == "") && s.artist == key then some (localDay m) else none

/-- Sorted set of distinct local days on which an artist key had an event. -/
def artistDaysOf (offset : Int) (ss : List Scrobble) (key : String) : List Int :=
  List.insertionSort (fun a b => a ≤ b) (ss.filterMap (artistDayRaw offset key)).dedup

/-- Day contributed by one event to the streak grouping of an album key:
requires a convertible timestamp, a non-empty artist and album, and the key. -/
def albumDayRaw (offset : Int) (key : String × String) (s : Scrobble) : Option Int :=
  match toLocal offset s.utcTime with
  | none => none
  | some m =>
    if !(s.artist == "") && !(s.album == "") && s.artist == key.1 && s.album == key.2 then
      some (localDay m)
    else none

/-- Sorted set of distinct local days on which an album key had an event. -/
def albumDaysOf (offset : Int) (ss : List Scrobble) (key : String × String) : List Int :=
  List.insertionSort (fun a b => a ≤ b) (ss.filterMap (albumDayRaw offset key)).dedup

/-- Per-hour slot of the hourly profile. -/
structure HourInfo where
  total : Nat
  topArtist : Option (String × Nat)
  topTrack : Option (String × String × Nat)
  deriving DecidableEq, Repr

/-- Events whose local instant falls in a given hour of day. -/
def hourEvents (offset : Int) (ss : List Scrobble) (h : Nat) : List Scrobble :=
  ss.filter (fun s =>
    match toLocal offset s.utcTime with
    | some m => localHour m == (h : Int)
    | none => false)

/-- Hour slot contents: total plays, most played artist, most played track. -/
def hourInfoFor (offset : Int) (ss : List Scrobble) (h : Nat) : HourInfo :=
  let evs := hourEvents offset ss h
  { total := evs.length,
    topArtist :=
      (mostCommon ((evs.filter (fun s => !(s.artist == ""))).map (fun s => s.artist)) 1).head?,
    topTrack :=
      ((mostCommon ((evs.filter (fun s => !(s.track == ""))).map
        (fun s => (s.artist, s.track))) 1).head?).map (fun e => (e.1.1, e.1.2, e.2)) }

/-- Hourly profile: for a non-empty event list, one slot per hour key 0 to 23;
for an empty input the operation signals no data. -/
def get_hourly_top (offset : Int) (ss : List Scrobble) :
    Option (List (String × HourInfo)) :=
  if ss.isEmpty then none
  else some ((List.range 24).map (fun h => (toString h, hourInfoFor offset ss h)))

/-! Lemmas about first-occurrence indices and the first-seen key order. -/

theorem firstIdx_append_of_mem {K : Type} [DecidableEq K] {p : List K} {x : K}
    (q : List K) (hx : x ∈ p) : firstIdx (p ++ q) x = firstIdx p x := by
  induction p with
  | nil => cases hx
  | cons a rest ih =>
    by_cases h : a = x
    · simp [firstIdx, h]
    · have hx' : x ∈ rest := by
        cases hx with
        | head => exact absurd rfl h
        | tail _ h2 => exact h2
      simp [firstIdx, h, ih hx']

theorem firstIdx_lt_length {K : Type} [DecidableEq K] {p : List K} {x : K}
    (hx : x ∈ p) : firstIdx p x < p.length := by
  induction p with
  | nil => cases hx
  | cons a rest ih =>
    by_cases h : a = x
    · simp [firstIdx, h]
    · have hx' : x ∈ rest := by
        cases hx with
        | head => exact absurd rfl h
        | tail _ h2 => exact h2
      simp only [firstIdx, h, if_neg h, List.length_cons]
      exact Nat.succ_lt_succ (ih hx')

theorem firstIdx_append_self {K : Type} [DecidableEq K] {p : List K} {x : K}
    (hx : x ∉ p) : firstIdx (p ++ [x]) x = p.length := by
  induction p with
  | nil => simp [firstIdx]
  | cons a rest ih =>
    have h : a ≠ x := fun h => hx (h ▸ List.mem_cons_self a rest)
    have hx' : x ∉ rest := fun h => hx (List.mem_cons_of_mem a h)
    simp [firstIdx, h, ih hx']

theorem seenKeys_append_singleton {K : Type} [DecidableEq K] (p : List K) (k : K) :
    seenKeys (p ++ [k]) =
      if k ∈ seenKeys p then seenKeys p else seenKeys p ++ [k] := by
  simp [seenKeys, List.foldl_append]

theorem mem_seenKeys {K : Type} [DecidableEq K] (p : List K) (x : K) :
    x ∈ seenKeys p ↔ x ∈ p := by
  induction p using List.reverseRecOn with
  | nil => simp [seenKeys]
  | append_singleton p k ih =>
    rw [seenKeys_append_singleton]
    by_cases h : k ∈ seenKeys p
    · simp only [if_pos h]
      constructor
      · intro hx; exact List.mem_append_left _ (ih.mp hx)
      · intro hx
        rcases List.mem_append.mp hx with h1 | h1
        · exact ih.mpr h1
        · have : x = k := List.mem_singleton.mp h1
          exact this ▸ h
    · simp only [if_neg h, List.mem_append, List.mem_singleton, ih]

theorem seenKeys_nodup {K : Type} [DecidableEq K] (p : List K) :
    (seenKeys p).Nodup := by
  induction p using List.reverseRecOn with
  | nil => simp [seenKeys]
  | append_singleton p k ih =>
    rw [seenKeys_append_singleton]
    by_cases h : k ∈ seenKeys p
    · simpa [h] using ih
    · simp only [if_neg h]
      exact List.Nodup.append ih (List.nodup_singleton k)
        (by intro a ha hb; have : a = k := List.mem_singleton.mp hb; exact h (this ▸ ha))

theorem seenKeys_pairwise {K : Type} [DecidableEq K] (p : List K) :
    (seenKeys p).Pairwise (fun a b => firstIdx p a < firstIdx p b) := by
  induction p using List.reverseRecOn with
  | nil => simp [seenKeys]
  | append_singleton p k ih =>
    rw [seenKeys_append_singleton]
    by_cases h : k ∈ seenKeys p
    · simp only [if_pos h]
      refine List.Pairwise.imp_of_mem ?_ ih
      intro a b ha hb hab
      rw [firstIdx_append_of_mem [k] ((mem_seenKeys p a).mp ha),
        firstIdx_append_of_mem [k] ((mem_seenKeys p b).mp hb)]
      exact hab
    · simp only [if_neg h]
      rw [List.pairwise_append]
      refine ⟨?_, List.pairwise_singleton _ _, ?_⟩
      · refine List.Pairwise.imp_of_mem ?_ ih
        intro a b ha hb hab
        rw [firstIdx_append_of_mem [k] ((mem_seenKeys p a).mp ha),
          firstIdx_append_of_mem [k] ((mem_seenKeys p b).mp hb)]
        exact hab
      · intro a ha b hb
        have hb' : b = k := List.mem_singleton.mp hb
        have hap : a ∈ p := (mem_seenKeys p a).mp ha
        have hk : k ∉ p := fun hkp => h ((mem_seenKeys p k).mpr hkp)
        rw [hb', firstIdx_append_of_mem [k] hap, firstIdx_append_self hk]
        exact firstIdx_lt_length hap

/-! Lemmas about the counting pass. -/

theorem countKeys_append_singleton {K : Type} [DecidableEq K] (p : List K) (k : K) :
    countKeys (p ++ [k]) = bump k (countKeys p) := by
  simp [countKeys, List.foldl_append]

theorem bump_map_fst {K : Type} [DecidableEq K] (k : K) (acc : List (K × Nat)) :
    (bump k acc).map Prod.fst =
      if k ∈ acc.map Prod.fst then acc.map Prod.fst else acc.map Prod.fst ++ [k] := by
  induction acc with
  | nil => simp [bump]
  | cons e rest ih =>
    by_cases h : e.1 = k
    · simp [bump, h]
    · have h' : ¬ k = e.1 := fun hk => h hk.symm
      by_cases h2 : k ∈ rest.map Prod.fst
      · simp [bump, h, h', h2, ih]
      · simp [bump, h, h', h2, ih]

theorem countKeys_map_fst {K : Type} [DecidableEq K] (p : List K) :
    (countKeys p).map Prod.fst = seenKeys p := by
  induction p using List.reverseRecOn with
  | nil => simp [countKeys, seenKeys]
  | append_singleton p k ih =>
    rw [countKeys_append_singleton, seenKeys_append_singleton, bump_map_fst, ih]

theorem bump_count_spec {K : Type} [DecidableEq K] (k : K) (acc : List (K × Nat))
    (cnt : K → Nat)
    (hnd : (acc.map Prod.fst).Nodup)
    (hc : ∀ e ∈ acc, e.2 = cnt e.1)
    (hnew : k ∉ acc.map Prod.fst → cnt k = 0) :
    ∀ e ∈ bump k acc, e.2 = cnt e.1 + (if e.1 = k then 1 else 0) := by
  induction acc with
  | nil =>
    intro e he
    simp only [bump, List.mem_singleton] at he
    subst he
    simp [hnew (by simp)]
  | cons a rest ih =>
    intro e he
    by_cases h : a.1 = k
    · simp only [bump, if_pos h] at he
      cases he with
      | head =>
        have := hc a (List.mem_cons_self a rest)
        simp [h, this]
      | tail _ hrest =>
        have hkn : a.1 ∉ rest.map Prod.fst := (List.nodup_cons.mp (by simpa using hnd)).1
        have hne : e.1 ≠ k := by
          intro hek
          exact hkn (h ▸ hek ▸ List.mem_map_of_mem Prod.fst hrest)
        simp only [if_neg hne, Nat.add_zero]
        exact hc e (List.mem_cons_of_mem a hrest)
    · simp only [bump, if_neg h] at he
      cases he with
      | head =>
        simp only [if_neg h, Nat.add_zero]
        exact hc a (List.mem_cons_self a rest)
      | tail _ hrest =>
        refine ih ?_ ?_ ?_ e hrest
        · exact (List.nodup_cons.mp (by simpa using hnd)).2
        · intro e' he'; exact hc e' (List.mem_cons_of_mem a he')
        · intro hk
          refine hnew ?_
          simp only [List.map_cons, List.mem_cons]
          rintro (h1 | h1)
          · exact h h1.symm
          · exact hk h1

theorem countKeys_count {K : Type} [DecidableEq K] (p : List K) :
    ∀ e ∈ countKeys p, e.2 = p.count e.1 := by
  induction p using List.reverseRecOn with
  | nil => intro e he; simp [countKeys] at he
  | append_singleton p k ih =>
    rw [countKeys_append_singleton]
    have hnd : ((countKeys p).map Prod.fst).Nodup := by
      rw [countKeys_map_fst]; exact seenKeys_nodup p
    have hspec := bump_count_spec k (countKeys p) (fun x => p.count x) hnd ih ?_
    · intro e he
      rw [hspec e he, List.count_append]
      by_cases hek : e.1 = k
      · simp [List.count_cons, hek]
      · simp [List.count_cons, hek]
    · intro hk
      have : k ∉ p := by
        rw [countKeys_map_fst, mem_seenKeys] at hk
        exact hk
      simpa using List.count_eq_zero.mpr this


/-! Lemmas about the stable descending sort. -/

theorem insertDesc_perm {K : Type} (x : K × Nat) (l : List (K × Nat)) :
    List.Perm (insertDesc x l) (x :: l) := by
  induction l with
  | nil => exact List.Perm.refl _
  | cons y ys ih =>
    by_cases h : x.2 < y.2
    · simp only [insertDesc, if_pos h]
      exact (ih.cons y).trans (List.Perm.swap x y ys)
    · simp only [insertDesc, if_neg h]
      exact List.Perm.refl _

theorem sortCountDesc_perm {K : Type} (l : List (K × Nat)) :
    List.Perm (sortCountDesc l) l := by
  induction l with
  | nil => exact List.Perm.refl _
  | cons x xs ih =>
    exact (insertDesc_perm x (sortCountDesc xs)).trans (ih.cons x)

theorem insertDesc_sorted {K : Type} (x : K × Nat) {l : List (K × Nat)}
    (hl : l.Pairwise (fun a b => b.2 ≤ a.2)) :
    (insertDesc x l).Pairwise (fun a b => b.2 ≤ a.2) := by
  induction l with
  | nil => simp [insertDesc]
  | cons y ys ih =>
    rcases List.pairwise_cons.mp hl with ⟨hy, hys⟩
    by_cases h : x.2 < y.2
    · simp only [insertDesc, if_pos h]
      refine List.pairwise_cons.mpr ⟨?_, ih hys⟩
      intro z hz
      rcases List.mem_cons.mp ((insertDesc_perm x ys).mem_iff.mp hz) with hz1 | hz1
      · rw [hz1]; omega
      · exact hy z hz1
    · simp only [insertDesc, if_neg h]
      refine List.pairwise_cons.mpr ⟨?_, hl⟩
      intro z hz
      cases hz with
      | head => omega
      | tail _ hz2 =>
        have := hy z hz2
        omega

theorem sortCountDesc_sorted {K : Type} (l : List (K × Nat)) :
    (sortCountDesc l).Pairwise (fun a b => b.2 ≤ a.2) := by
  induction l with
  | nil => simp [sortCountDesc]
  | cons x xs ih => exact insertDesc_sorted x ih

theorem insertDesc_stable {K : Type} (S : (K × Nat) → (K × Nat) → Prop)
    (x : K × Nat) {l : List (K × Nat)}
    (hsort : l.Pairwise (fun a b => b.2 ≤ a.2))
    (hl : l.Pairwise (fun a b => b.2 < a.2 ∨ (a.2 = b.2 ∧ S a b)))
    (hx : ∀ y ∈ l, S x y) :
    (insertDesc x l).Pairwise (fun a b => b.2 < a.2 ∨ (a.2 = b.2 ∧ S a b)) := by
  induction l with
  | nil => simp [insertDesc]
  | cons y ys ih =>
    rcases List.pairwise_cons.mp hl with ⟨hy, hys⟩
    rcases List.pairwise_cons.mp hsort with ⟨hy2, hys2⟩
    by_cases h : x.2 < y.2
    · simp only [insertDesc, if_pos h]
      refine List.pairwise_cons.mpr
        ⟨?_, ih hys2 hys (fun z hz => hx z (List.mem_cons_of_mem y hz))⟩
      intro z hz
      rcases List.mem_cons.mp ((insertDesc_perm x ys).mem_iff.mp hz) with hz1 | hz1
      · exact Or.inl (hz1 ▸ h)
      · exact hy z hz1
    · simp only [insertDesc, if_neg h]
      refine List.pairwise_cons.mpr ⟨?_, hl⟩
      intro z hz
      cases hz with
      | head =>
        rcases Nat.lt_or_ge y.2 x.2 with h2 | h2
        · exact Or.inl h2
        · exact Or.inr ⟨by omega, hx y (List.mem_cons_self y ys)⟩
      | tail _ hz2 =>
        rcases Nat.lt_or_ge z.2 x.2 with h2 | h2
        · exact Or.inl h2
        · have hzy : z.2 ≤ y.2 := hy2 z hz2
          exact Or.inr ⟨by omega, hx z (List.mem_cons_of_mem y hz2)⟩

theorem sortCountDesc_stable {K : Type} (S : (K × Nat) → (K × Nat) → Prop)
    {l : List (K × Nat)} (hl : l.Pairwise S) :
    (sortCountDesc l).Pairwise (fun a b => b.2 < a.2 ∨ (a.2 = b.2 ∧ S a b)) := by
  induction l with
  | nil => simp [sortCountDesc]
  | cons x xs ih =>
    rcases List.pairwise_cons.mp hl with ⟨hx, hxs⟩
    refine insertDesc_stable S x (sortCountDesc_sorted xs) (ih hxs) ?_
    intro y hy
    exact hx y ((sortCountDesc_perm xs).mem_iff.mp hy)

/-! Lemmas about the ranked listing. -/

theorem mostCommon_count {K : Type} [DecidableEq K] {ks : List K} {n : Nat}
    {k : K} {c : Nat} (h : (k, c) ∈ mostCommon ks n) : c = ks.count k := by
  have h1 : (k, c) ∈ sortCountDesc (countKeys ks) := List.mem_of_mem_take h
  have h2 : (k, c) ∈ countKeys ks := (sortCountDesc_perm _).mem_iff.mp h1
  exact countKeys_count ks (k, c) h2

theorem countKeys_length {K : Type} [DecidableEq K] (ks : List K) :
    (countKeys ks).length = ks.toFinset.card := by
  have h1 : (countKeys ks).length = (seenKeys ks).length := by
    rw [← countKeys_map_fst, List.length_map]
  have h2 : (seenKeys ks).toFinset = ks.toFinset := by
    ext x
    simp [List.mem_toFinset, mem_seenKeys]
  rw [h1, ← List.toFinset_card_of_nodup (seenKeys_nodup ks), h2]

theorem mostCommon_length {K : Type} [DecidableEq K] (ks : List K) (n : Nat) :
    (mostCommon ks n).length = min n ks.toFinset.card := by
  rw [mostCommon, List.length_take, (sortCountDesc_perm _).length_eq, countKeys_length]

theorem mostCommon_sorted {K : Type} [DecidableEq K] (ks : List K) (n : Nat) :
    (mostCommon ks n).Pairwise (fun a b => b.2 ≤ a.2) :=
  (sortCountDesc_sorted _).sublist (List.take_sublist n _)

theorem countKeys_firstIdx_pairwise {K : Type} [DecidableEq K] (ks : List K) :
    (countKeys ks).Pairwise (fun a b => firstIdx ks a.1 < firstIdx ks b.1) := by
  have h := seenKeys_pairwise ks
  rw [← countKeys_map_fst, List.pairwise_map] at h
  exact h

theorem mostCommon_stable {K : Type} [DecidableEq K] (ks : List K) (n : Nat) :
    (mostCommon ks n).Pairwise
      (fun a b => b.2 < a.2 ∨ (a.2 = b.2 ∧ firstIdx ks a.1 < firstIdx ks b.1)) :=
  (sortCountDesc_stable _ (countKeys_firstIdx_pairwise ks)).sublist (List.take_sublist n _)

theorem mostCommon_ne_nil {K : Type} [DecidableEq K] {ks : List K} {n : Nat}
    (hks : ks ≠ []) (hn : 0 < n) : mostCommon ks n ≠ [] := by
  have hcard : 0 < ks.toFinset.card := by
    rcases List.exists_mem_of_ne_nil ks hks with ⟨x, hx⟩
    exact Finset.card_pos.mpr ⟨x, List.mem_toFinset.mpr hx⟩
  have hlen := mostCommon_length ks n
  intro hnil
  rw [hnil] at hlen
  simp only [List.length_nil] at hlen
  omega

/-! Lemmas about the streak scan. -/

/-- A day sequence in which each entry is exactly one day after the previous. -/
def consecRun (p : List Int) : Prop := p.Chain' (fun a b => b - a = 1)

theorem mem_of_getLast?_eq {l : List Int} {a : Int} (h : l.getLast? = some a) :
    a ∈ l := by
  have h' : a ∈ l.getLast? := Option.mem_def.mpr h
  obtain ⟨hne, rfl⟩ := List.mem_getLast?_eq_getLast h'
  exact List.getLast_mem hne

theorem consecRun_concat {p : List Int} {d e : Int} (hl : p.getLast? = some e) :
    consecRun (p ++ [d]) ↔ consecRun p ∧ d - e = 1 := by
  rw [consecRun, consecRun, List.chain'_append]
  constructor
  · rintro ⟨h1, _, h3⟩
    refine ⟨h1, ?_⟩
    have := h3 e (Option.mem_def.mpr hl) d (by simp)
    exact this
  · rintro ⟨h1, h2⟩
    refine ⟨h1, List.chain'_singleton d, ?_⟩
    intro x hx y hy
    have hx' : x = e := by
      have := Option.mem_def.mp hx
      rw [hl] at this
      exact (Option.some.inj this).symm
    have hy2 : d = y := by simpa using hy
    rw [hx', ← hy2]
    exact h2

/-- Loop invariant of the streak scan over a non-empty processed prefix: the
current run is a real suffix run ending at the last processed day, the best
closed run is either absent or a real run, both lengths are bounded by the
prefix length, and the current and best lengths are exact for a fully
consecutive prefix and strictly smaller than the prefix length otherwise. -/
def StreakInvNE (p : List Int) (st : StreakState) : Prop :=
  (∃ c e, st.curStart = some c ∧ st.prevDay = some e ∧ p.getLast? = some e ∧
    c ∈ p ∧ e - c = (st.curStreak : Int) - 1 ∧ 1 ≤ st.curStreak ∧
    st.curStreak ≤ p.length) ∧
  ((st.maxStreak = 0 ∧ st.maxStart = none ∧ st.maxEnd = none) ∨
    (∃ a b, st.maxStart = some a ∧ st.maxEnd = some b ∧ a ∈ p ∧ b ∈ p ∧
      b - a = (st.maxStreak : Int) - 1 ∧ 1 ≤ st.maxStreak ∧
      st.maxStreak ≤ p.length)) ∧
  (consecRun p → st.curStreak = p.length ∧ st.maxStreak = 0) ∧
  (¬ consecRun p → st.curStreak < p.length ∧ st.maxStreak < p.length)

theorem streak_fold_inv (p : List Int) :
    p ≠ [] → StreakInvNE p (p.foldl streakStep streakInit) := by
  induction p using List.reverseRecOn with
  | nil => intro h; exact absurd rfl h
  | append_singleton p d ih =>
    intro _
    rw [List.foldl_append, List.foldl_cons, List.foldl_nil]
    by_cases hp : p = []
    · subst hp
      simp only [List.foldl_nil, List.nil_append]
      refine ⟨⟨d, d, rfl, rfl, rfl, List.mem_singleton_self d, by simp [streakStep, streakInit],
          by simp [streakStep, streakInit], by simp [streakStep, streakInit]⟩,
        Or.inl ⟨rfl, rfl, rfl⟩, fun _ => ⟨by simp [streakStep, streakInit], rfl⟩,
        fun hc => absurd (List.chain'_singleton d) hc⟩
    · obtain ⟨⟨c, e, hcs, hpd, hgl, hcmem, hce, hc1, hcle⟩, hmax, hcons, hncons⟩ := ih hp
      have hplen : 1 ≤ p.length := List.length_pos.mpr hp
      have hglast : (p ++ [d]).getLast? = some d := List.getLast?_concat p
      have hlen : (p ++ [d]).length = p.length + 1 := by simp
      have hconcat := consecRun_concat (d := d) hgl
      have hemem : e ∈ p := mem_of_getLast?_eq hgl
      simp only [streakStep, hpd]
      split_ifs with h1 h2
      · -- the run continues
        refine ⟨⟨c, d, hcs, rfl, hglast, List.mem_append_left _ hcmem, ?_, ?_, ?_⟩,
          ?_, ?_, ?_⟩
        · dsimp only
          push_cast
          omega
        · dsimp only; omega
        · dsimp only; rw [hlen]; omega
        · rcases hmax with ⟨hm0, hms, hme⟩ | ⟨a, b, hma, hmb, hamem, hbmem, hab, hm1, hmle⟩
          · exact Or.inl ⟨hm0, hms, hme⟩
          · exact Or.inr ⟨a, b, hma, hmb, List.mem_append_left _ hamem,
              List.mem_append_left _ hbmem, hab, hm1, by dsimp only; rw [hlen]; omega⟩
        · intro hcp
          have hparts := hconcat.mp hcp
          obtain ⟨hr1, hr2⟩ := hcons hparts.1
          constructor
          · dsimp only; rw [hlen]; omega
          · exact hr2
        · intro hncp
          have hnp : ¬ consecRun p := by
            intro hcp
            exact hncp (hconcat.mpr ⟨hcp, h1⟩)
          obtain ⟨hr1, hr2⟩ := hncons hnp
          dsimp only
          rw [hlen]
          omega
      · -- gap, current run is the new best
        refine ⟨⟨d, d, rfl, rfl, hglast, List.mem_append_right _ (List.mem_singleton_self d),
            by dsimp only; omega, le_refl 1, by dsimp only; rw [hlen]; omega⟩,
          Or.inr ⟨c, e, hcs, rfl, List.mem_append_left _ hcmem,
            List.mem_append_left _ hemem, by dsimp only; exact hce, by dsimp only; omega,
            by dsimp only; rw [hlen]; omega⟩,
          ?_, ?_⟩
        · intro hcp
          exact absurd (hconcat.mp hcp).2 h1
        · intro _
          dsimp only
          rw [hlen]
          omega
      · -- gap, the previous best stays
        refine ⟨⟨d, d, rfl, rfl, hglast, List.mem_append_right _ (List.mem_singleton_self d),
            by dsimp only; omega, le_refl 1, by dsimp only; rw [hlen]; omega⟩, ?_, ?_, ?_⟩
        · rcases hmax with ⟨hm0, _, _⟩ | ⟨a, b, hma, hmb, hamem, hbmem, hab, hm1, hmle⟩
          · exact ((by omega : False)).elim
          · exact Or.inr ⟨a, b, hma, hmb, List.mem_append_left _ hamem,
              List.mem_append_left _ hbmem, by dsimp only; exact hab, by dsimp only; omega,
              by dsimp only; rw [hlen]; omega⟩
        · intro hcp
          exact absurd (hconcat.mp hcp).2 h1
        · intro _
          rcases hmax with ⟨hm0, _, _⟩ | ⟨a, b, _, _, _, _, _, hm1, hmle⟩
          · dsimp only; rw [hlen]; omega
          · dsimp only; rw [hlen]; omega

theorem computeStreak_spec {l : List Int} (h : l ≠ []) :
    ∃ len s e, computeStreak l = (len, some s, some e) ∧ 1 ≤ len ∧ s ∈ l ∧ e ∈ l ∧
      e - s = (len : Int) - 1 ∧ len ≤ l.length ∧ (len = l.length ↔ consecRun l) := by
  obtain ⟨⟨c, e, hcs, hpd, _, hcmem, hce, hc1, hcle⟩, hmax, hcons, hncons⟩ :=
    streak_fold_inv l h
  rw [computeStreak, streakFinal]
  have hemem : e ∈ l := by
    obtain ⟨⟨c', e', _, hpd', hgl', _, _, _, _⟩, _, _, _⟩ := streak_fold_inv l h
    have : e = e' := by
      rw [hpd] at hpd'
      exact Option.some.inj hpd'
    exact this ▸ mem_of_getLast?_eq hgl'
  split_ifs with hif
  · refine ⟨(l.foldl streakStep streakInit).curStreak, c, e, ?_, hc1, hcmem, hemem,
      hce, hcle, ?_⟩
    · rw [hcs, hpd]
    · constructor
      · intro hlen
        by_contra hnc
        have := hncons hnc
        omega
      · intro hc
        exact (hcons hc).1
  · rcases hmax with ⟨hm0, _, _⟩ | ⟨a, b, hma, hmb, hamem, hbmem, hab, hm1, hmle⟩
    · exact ((by omega : False)).elim
    · refine ⟨(l.foldl streakStep streakInit).maxStreak, a, b, ?_, hm1, hamem, hbmem,
        hab, hmle, ?_⟩
      · rw [hma, hmb]
      · constructor
        · intro hlen
          by_contra hnc
          have := hncons hnc
          omega
        · intro hc
          have := hcons hc
          omega

theorem computeStreak_fst_le (l : List Int) :
    (computeStreak l).1 ≤ l.length ∧ ((computeStreak l).1 = l.length ↔ consecRun l) := by
  by_cases h : l = []
  · subst h
    refine ⟨by simp [computeStreak, streakFinal, streakInit], ?_, ?_⟩
    · intro _
      exact List.chain'_nil
    · intro _
      simp [computeStreak, streakFinal, streakInit]
  · obtain ⟨len, s, e, hck, _, _, _, _, hle, hiff⟩ := computeStreak_spec h
    rw [hck]
    exact ⟨hle, hiff⟩

/-! Counting helpers connecting list scans to per-event predicates. -/

theorem count_map_filter {α K : Type} [DecidableEq K] (q : α → Bool) (f : α → K)
    (l : List α) (k : K) :
    ((l.filter q).map f).count k = l.countP (fun s => q s && decide (f s = k)) := by
  induction l with
  | nil => simp
  | cons a l ih =>
    by_cases hq : q a
    · by_cases hk : f a = k
      · simp [List.filter_cons, hq, List.count_cons, List.countP_cons, hk, ih]
      · simp [List.filter_cons, hq, List.count_cons, List.countP_cons, hk, ih]
    · simp [List.filter_cons, hq, List.countP_cons, ih]

theorem length_filterMap_eq_countP {α β : Type} (f : α → Option β) (l : List α) :
    (l.filterMap f).length = l.countP (fun x => (f x).isSome) := by
  induction l with
  | nil => simp
  | cons a l ih =>
    cases hfa : f a with
    | none => simp [List.filterMap_cons, hfa, List.countP_cons, ih]
    | some b => simp [List.filterMap_cons, hfa, List.countP_cons, ih]

theorem countP_isSome_add_isNone {α β : Type} (f : α → Option β) (l : List α) :
    l.countP (fun x => (f x).isSome) + l.countP (fun x => (f x).isNone) = l.length := by
  induction l with
  | nil => simp
  | cons a l ih =>
    cases hfa : f a with
    | none => simp [List.countP_cons, hfa]; omega
    | some b => simp [List.countP_cons, hfa]; omega

/-! Lemmas about the per-key day sets of the streak finder. -/

theorem mem_trackDaysOf {offset : Int} {ss : List Scrobble} {key : String × String}
    {d : Int} :
    d ∈ trackDaysOf offset ss key ↔ ∃ s ∈ ss, trackDayRaw offset key s = some d := by
  rw [trackDaysOf, (List.perm_insertionSort _ _).mem_iff, List.mem_dedup]
  exact List.mem_filterMap

theorem trackDaysOf_length {offset : Int} {ss : List Scrobble} {key : String × String} :
    (trackDaysOf offset ss key).length =
      (ss.filterMap (trackDayRaw offset key)).toFinset.card := by
  rw [trackDaysOf, (List.perm_insertionSort _ _).length_eq, List.card_toFinset]

theorem trackDaysOf_ne_nil {offset : Int} {ss : List Scrobble} {key : String × String}
    (h : ∃ s ∈ ss, (trackDayRaw offset key s).isSome) :
    trackDaysOf offset ss key ≠ [] := by
  obtain ⟨s, hs, hsome⟩ := h
  obtain ⟨d, hd⟩ := Option.isSome_iff_exists.mp hsome
  intro hnil
  have hmem := (mem_trackDaysOf (d := d)).mpr ⟨s, hs, hd⟩
  rw [hnil] at hmem
  cases hmem

theorem mem_sortedDays {f : Scrobble → Option Int} {ss : List Scrobble} {d : Int} :
    d ∈ List.insertionSort (fun a b => a ≤ b) (ss.filterMap f).dedup ↔
      ∃ s ∈ ss, f s = some d := by
  rw [(List.perm_insertionSort _ _).mem_iff, List.mem_dedup]
  exact List.mem_filterMap

/-- Generic per-key streak entry property, shared by the three grouping shapes
of the streak finder: for any per-event day extraction with at least one
contributing event, the scan over the sorted distinct day set yields a streak
of length at least one whose start and end are contributed days, with the end
minus the start equal to the length minus one, and a single contributing
occurrence yields length exactly one. -/
theorem streak_entry_spec (f : Scrobble → Option Int) (ss : List Scrobble)
    (hev : ∃ s ∈ ss, (f s).isSome) :
    ∃ len st en,
      computeStreak (List.insertionSort (fun a b => a ≤ b) (ss.filterMap f).dedup) =
        (len, some st, some en) ∧
      1 ≤ len ∧
      (∃ s ∈ ss, f s = some st) ∧
      (∃ s ∈ ss, f s = some en) ∧
      en - st = (len : Int) - 1 ∧
      (ss.countP (fun s => (f s).isSome) = 1 → len = 1) := by
  have hne : List.insertionSort (fun a b => a ≤ b) (ss.filterMap f).dedup ≠ [] := by
    obtain ⟨s, hs, hsome⟩ := hev
    obtain ⟨d, hd⟩ := Option.isSome_iff_exists.mp hsome
    intro hnil
    have hmem := (mem_sortedDays (d := d)).mpr ⟨s, hs, hd⟩
    rw [hnil] at hmem
    cases hmem
  obtain ⟨len, st, en, hck, h1, hstm, henm, hdiff, hle, _⟩ := computeStreak_spec hne
  refine ⟨len, st, en, hck, h1, mem_sortedDays.mp hstm, mem_sortedDays.mp henm,
    hdiff, ?_⟩
  intro hcount
  have hraw : (ss.filterMap f).length = 1 := by
    rw [length_filterMap_eq_countP]
    exact hcount
  obtain ⟨a, ha⟩ := List.length_eq_one.mp hraw
  have hlen1 :
      (List.insertionSort (fun a b => a ≤ b) (ss.filterMap f).dedup).length = 1 := by
    rw [(List.perm_insertionSort _ _).length_eq, ha, (List.nodup_singleton a).dedup]
    rfl
  omega

/-! Summation helpers for the hourly profile. -/

theorem sum_map_add {β : Type} (xs : List β) (f g : β → Nat) :
    (xs.map (fun x => f x + g x)).sum = (xs.map f).sum + (xs.map g).sum := by
  induction xs with
  | nil => simp
  | cons x xs ih =>
    simp only [List.map_cons, List.sum_cons, ih]
    omega

theorem sum_indicator_range {n h0 : Nat} (h : h0 < n) :
    ((List.range n).map (fun h => if h = h0 then 1 else 0)).sum = 1 := by
  induction n with
  | zero => omega
  | succ n ih =>
    rw [List.range_succ, List.map_append, List.sum_append]
    by_cases hh : h0 = n
    · subst hh
      have hz : ((List.range h0).map (fun h => if h = h0 then 1 else 0)).sum = 0 := by
        refine List.sum_eq_zero ?_
        intro x hx
        obtain ⟨i, hi, rfl⟩ := List.mem_map.mp hx
        have hlt : i < h0 := List.mem_range.mp hi
        simp [Nat.ne_of_lt hlt]
      simp [hz]
    · have hlt : h0 < n := by omega
      have hne : ¬ n = h0 := by omega
      simp [ih hlt, hne]

theorem localHour_bounds (m : Int) : 0 ≤ localHour m ∧ localHour m < 24 := by
  have h1 : 0 ≤ Int.emod m 1440 := Int.emod_nonneg m (by norm_num)
  have h2 : Int.emod m 1440 < 1440 := Int.emod_lt_of_pos m (by norm_num)
  rw [localHour]
  refine ⟨Int.ediv_nonneg h1 (by norm_num), ?_⟩
  exact (Int.ediv_lt_iff_lt_mul (by norm_num : (0:Int) < 60)).mpr (by omega)


theorem hourEvents_cons_length (offset : Int) (s : Scrobble) (l : List Scrobble) (h : Nat) :
    (hourEvents offset (s :: l) h).length =
      (if (match toLocal offset s.utcTime with
            | some m => localHour m == (h : Int)
            | none => false) then 1 else 0) + (hourEvents offset l h).length := by
  rw [hourEvents, hourEvents, List.filter_cons]
  split_ifs with hp
  · simp [Nat.add_comm]
  · simp

theorem sum_hourEvents_length (offset : Int) (ss : List Scrobble) :
    ((List.range 24).map (fun h => (hourEvents offset ss h).length)).sum =
      ss.countP (fun s => (toLocal offset s.utcTime).isSome) := by
  induction ss with
  | nil =>
    have hz : ∀ x ∈ (List.range 24).map
        (fun h => (hourEvents offset ([] : List Scrobble) h).length), x = 0 := by
      intro x hx
      obtain ⟨i, _, rfl⟩ := List.mem_map.mp hx
      simp [hourEvents]
    simp [List.sum_eq_zero hz]
  | cons s l ih =>
    have hsplit : (List.range 24).map (fun h => (hourEvents offset (s :: l) h).length) =
        (List.range 24).map (fun h =>
          (if (match toLocal offset s.utcTime with
                | some m => localHour m == (h : Int)
                | none => false) then 1 else 0) + (hourEvents offset l h).length) :=
      List.map_congr_left (fun h _ => hourEvents_cons_length offset s l h)
    rw [hsplit, sum_map_add, ih]
    cases hto : toLocal offset s.utcTime with
    | none =>
      simp [List.countP_cons, hto]
    | some m =>
      have hb := localHour_bounds m
      have heq : ∀ h ∈ List.range 24,
          (if (localHour m == (h : Int)) then 1 else 0) =
            (if h = (localHour m).toNat then 1 else 0) := by
        intro h _
        by_cases hcase : h = (localHour m).toNat
        · subst hcase
          simp [Int.toNat_of_nonneg hb.1]
        · have hne : ¬ (localHour m == (h : Int)) = true := by
            simp only [beq_iff_eq]
            intro hEq
            apply hcase
            omega
          simp [hne, hcase]
      dsimp only
      rw [List.map_congr_left heq, sum_indicator_range (by omega)]
      simp [List.countP_cons, hto]
      omega

/-! Claim theorems. -/

/-- Claim C1: for every event list and every grouping key of any of the three
shapes, track (artist, track), artist, or album (artist, album), that has at
least one event with a convertible timestamp and the required non-empty
fields, the streak entry computed for that key by the streak finder has length
at least one, its start day and end day are days on which the key had an
event, the end day minus the start day equals the length minus one, and a key
with a single qualifying occurrence yields a streak of length exactly one. -/
theorem claim_C1_streak_entry (offset : Int) (ss : List Scrobble)
    (tkey : String × String) (akey : String) (bkey : String × String) :
    ((∃ s ∈ ss, (trackDayRaw offset tkey s).isSome) →
      ∃ len st en,
        computeStreak (trackDaysOf offset ss tkey) = (len, some st, some en) ∧
        1 ≤ len ∧
        (∃ s ∈ ss, trackDayRaw offset tkey s = some st) ∧
        (∃ s ∈ ss, trackDayRaw offset tkey s = some en) ∧
        en - st = (len : Int) - 1 ∧
        (ss.countP (fun s => (trackDayRaw offset tkey s).isSome) = 1 → len = 1)) ∧
    ((∃ s ∈ ss, (artistDayRaw offset akey s).isSome) →
      ∃ len st en,
        computeStreak (artistDaysOf offset ss akey) = (len, some st, some en) ∧
        1 ≤ len ∧
        (∃ s ∈ ss, artistDayRaw offset akey s = some st) ∧
        (∃ s ∈ ss, artistDayRaw offset akey s = some en) ∧
        en - st = (len : Int) - 1 ∧
        (ss.countP (fun s => (artistDayRaw offset akey s).isSome) = 1 → len = 1)) ∧
    ((∃ s ∈ ss, (albumDayRaw offset bkey s).isSome) →
      ∃ len st en,
        computeStreak (albumDaysOf offset ss bkey) = (len, some st, some en) ∧
        1 ≤ len ∧
        (∃ s ∈ ss, albumDayRaw offset bkey s = some st) ∧
        (∃ s ∈ ss, albumDayRaw offset bkey s = some en) ∧
        en - st = (len : Int) - 1 ∧
        (ss.countP (fun s => (albumDayRaw offset bkey s).isSome) = 1 → len = 1)) :=
  ⟨fun hev => streak_entry_spec (trackDayRaw offset tkey) ss hev,
   fun hev => streak_entry_spec (artistDayRaw offset akey) ss hev,
   fun hev => streak_entry_spec (albumDayRaw offset bkey) ss hev⟩

theorem claim_C1_witness :
    (∃ len st en,
      computeStreak (trackDaysOf 0
          [⟨"A", "L", "T", "01 Jan 2020, 10:00", "", ""⟩,
           ⟨"A", "L", "T", "02 Jan 2020, 09:00", "", ""⟩] ("A", "T")) =
        (len, some st, some en) ∧
      1 ≤ len ∧
      (∃ s ∈ [⟨"A", "L", "T", "01 Jan 2020, 10:00", "", ""⟩,
              ⟨"A", "L", "T", "02 Jan 2020, 09:00", "", ""⟩],
        trackDayRaw 0 ("A", "T") s = some st) ∧
      (∃ s ∈ [⟨"A", "L", "T", "01 Jan 2020, 10:00", "", ""⟩,
              ⟨"A", "L", "T", "02 Jan 2020, 09:00", "", ""⟩],
        trackDayRaw 0 ("A", "T") s = some en) ∧
      en - st = (len : Int) - 1 ∧
      (List.countP (fun s => (trackDayRaw 0 ("A", "T") s).isSome)
          [⟨"A", "L", "T", "01 Jan 2020, 10:00", "", ""⟩,
           ⟨"A", "L", "T", "02 Jan 2020, 09:00", "", ""⟩] = 1 → len = 1)) ∧
    (∃ len st en,
      computeStreak (artistDaysOf 0
          [⟨"A", "L", "T", "01 Jan 2020, 10:00", "", ""⟩,
           ⟨"A", "L", "T", "02 Jan 2020, 09:00", "", ""⟩] "A") =
        (len, some st, some en) ∧
      1 ≤ len ∧
      (∃ s ∈ [⟨"A", "L", "T", "01 Jan 2020, 10:00", "", ""⟩,
              ⟨"A", "L", "T", "02 Jan 2020, 09:00", "", ""⟩],
        artistDayRaw 0 "A" s = some st) ∧
      (∃ s ∈ [⟨"A", "L", "T", "01 Jan 2020, 10:00", "", ""⟩,
              ⟨"A", "L", "T", "02 Jan 2020, 09:00", "", ""⟩],
        artistDayRaw 0 "A" s = some en) ∧
      en - st = (len : Int) - 1 ∧
      (List.countP (fun s => (artistDayRaw 0 "A" s).isSome)
          [⟨"A", "L", "T", "01 Jan 2020, 10:00", "", ""⟩,
           ⟨"A", "L", "T", "02 Jan 2020, 09:00", "", ""⟩] = 1 → len = 1)) ∧
    (∃ len st en,
      computeStreak (albumDaysOf 0
          [⟨"A", "L", "T", "01 Jan 2020, 10:00", "", ""⟩,
           ⟨"A", "L", "T", "02 Jan 2020, 09:00", "", ""⟩] ("A", "L")) =
        (len, some st, some en) ∧
      1 ≤ len ∧
      (∃ s ∈ [⟨"A", "L", "T", "01 Jan 2020, 10:00", "", ""⟩,
              ⟨"A", "L", "T", "02 Jan 2020, 09:00", "", ""⟩],
        albumDayRaw 0 ("A", "L") s = some st) ∧
      (∃ s ∈ [⟨"A", "L", "T", "01 Jan 2020, 10:00", "", ""⟩,
              ⟨"A", "L", "T", "02 Jan 2020, 09:00", "", ""⟩],
        albumDayRaw 0 ("A", "L") s = some en) ∧
      en - st = (len : Int) - 1 ∧
      (List.countP (fun s => (albumDayRaw 0 ("A", "L") s).isSome)
          [⟨"A", "L", "T", "01 Jan 2020, 10:00", "", ""⟩,
           ⟨"A", "L", "T", "02 Jan 2020, 09:00", "", ""⟩] = 1 → len = 1)) :=
  ⟨(claim_C1_streak_entry 0
      [⟨"A", "L", "T", "01 Jan 2020, 10:00", "", ""⟩,
       ⟨"A", "L", "T", "02 Jan 2020, 09:00", "", ""⟩]
      ("A", "T") "A" ("A", "L")).1 (by decide),
   (claim_C1_streak_entry 0
      [⟨"A", "L", "T", "01 Jan 2020, 10:00", "", ""⟩,
       ⟨"A", "L", "T", "02 Jan 2020, 09:00", "", ""⟩]
      ("A", "T") "A" ("A", "L")).2.1 (by decide),
   (claim_C1_streak_entry 0
      [⟨"A", "L", "T", "01 Jan 2020, 10:00", "", ""⟩,
       ⟨"A", "L", "T", "02 Jan 2020, 09:00", "", ""⟩]
      ("A", "T") "A" ("A", "L")).2.2 (by decide)⟩

/-- Claim C2: for every event list and every track key, the streak length
computed by the streak finder is at most the number of distinct local calendar
days on which the key had a qualifying event, and it equals that number exactly
when the key's sorted distinct days are pairwise consecutive. -/
theorem claim_C2_streak_bound (offset : Int) (ss : List Scrobble)
    (key : String × String) :
    (computeStreak (trackDaysOf offset ss key)).1 ≤
        (ss.filterMap (trackDayRaw offset key)).toFinset.card ∧
      ((computeStreak (trackDaysOf offset ss key)).1 =
          (ss.filterMap (trackDayRaw offset key)).toFinset.card ↔
        consecRun (trackDaysOf offset ss key)) := by
  have h := computeStreak_fst_le (trackDaysOf offset ss key)
  rw [trackDaysOf_length] at h
  exact h


/-- Claim C3: with both bounds absent the date filter returns the event list
unchanged, including events with unparsable timestamps; when at least one
bound is given in the timestamp format, exactly those events are kept whose
parsed timestamp lies within the given inclusive bounds, only the given bound
being applied, and every event whose timestamp fails to parse is dropped. -/
theorem claim_C3_date_filter (ss : List Scrobble) (fromDate toDate : Option String)
    (hf : ∀ x, fromDate = some x → x ≠ "" ∧ (parseDate x).isSome)
    (ht : ∀ x, toDate = some x → x ≠ "" ∧ (parseDate x).isSome) :
    filter_scrobbles_by_date ss none none = ss ∧
      (fromDate ≠ none ∨ toDate ≠ none →
        filter_scrobbles_by_date ss fromDate toDate = ss.filter (fun s =>
          match parseDate s.utcTime with
          | none => false
          | some t =>
            (match fromDate.bind parseDate with
             | none => true
             | some f => decide (f ≤ t)) &&
            (match toDate.bind parseDate with
             | none => true
             | some u => decide (t ≤ u)))) := by
  constructor
  · rfl
  · intro hgiven
    match hfd : fromDate, htd : toDate with
    | none, none =>
      rcases hgiven with h | h
      · exact absurd rfl h
      · exact absurd rfl h
    | none, some t =>
      obtain ⟨htne, htp⟩ := ht t rfl
      obtain ⟨tv, htv⟩ := Option.isSome_iff_exists.mp htp
      have hot : optTruthy (some t) = true := by
        simp [optTruthy, htne]
      rw [filter_scrobbles_by_date, hot]
      simp only [optTruthy, Bool.not_false, Bool.not_true, Bool.and_false,
        Bool.false_eq_true, if_false, eq_self_iff_true, if_true, Option.getD_some,
        htv, Option.some_bind, Option.none_bind]
      refine List.filter_congr ?_
      intro s _
      cases hps : parseDate s.utcTime with
      | none => rfl
      | some dt =>
        have h2 : (!(decide (tv < dt))) = decide (dt ≤ tv) := by
          rw [← decide_not, decide_eq_decide]
          exact not_lt
        simp only [Bool.true_and, h2]
    | some f, none =>
      obtain ⟨hfne, hfp⟩ := hf f rfl
      obtain ⟨fv, hfv⟩ := Option.isSome_iff_exists.mp hfp
      have hof : optTruthy (some f) = true := by
        simp [optTruthy, hfne]
      rw [filter_scrobbles_by_date, hof]
      simp only [optTruthy, Bool.not_false, Bool.not_true, Bool.false_and,
        Bool.false_eq_true, if_false, eq_self_iff_true, if_true, Option.getD_some,
        hfv, Option.some_bind, Option.none_bind]
      refine List.filter_congr ?_
      intro s _
      cases hps : parseDate s.utcTime with
      | none => rfl
      | some dt =>
        have h1 : (!(decide (dt < fv))) = decide (fv ≤ dt) := by
          rw [← decide_not, decide_eq_decide]
          exact not_lt
        simp only [Bool.and_true, h1]
    | some f, some t =>
      obtain ⟨hfne, hfp⟩ := hf f rfl
      obtain ⟨fv, hfv⟩ := Option.isSome_iff_exists.mp hfp
      obtain ⟨htne, htp⟩ := ht t rfl
      obtain ⟨tv, htv⟩ := Option.isSome_iff_exists.mp htp
      have hof : optTruthy (some f) = true := by
        simp [optTruthy, hfne]
      have hot : optTruthy (some t) = true := by
        simp [optTruthy, htne]
      rw [filter_scrobbles_by_date, hof, hot]
      simp only [Bool.not_true, Bool.false_and, Bool.false_eq_true, if_false,
        eq_self_iff_true, if_true, Option.getD_some, hfv, htv, Option.some_bind]
      refine List.filter_congr ?_
      intro s _
      cases hps : parseDate s.utcTime with
      | none => rfl
      | some dt =>
        have h1 : (!(decide (dt < fv))) = decide (fv ≤ dt) := by
          rw [← decide_not, decide_eq_decide]
          exact not_lt
        have h2 : (!(decide (tv < dt))) = decide (dt ≤ tv) := by
          rw [← decide_not, decide_eq_decide]
          exact not_lt
        dsimp only
        rw [h1, h2]

theorem claim_C3_witness :
    filter_scrobbles_by_date
        [⟨"A", "", "T", "02 Jan 2020, 12:00", "", ""⟩,
         ⟨"B", "", "U", "31 Dec 2019, 12:00", "", ""⟩,
         ⟨"C", "", "V", "bad", "", ""⟩]
        (some "01 Jan 2020, 00:00") none =
      List.filter (fun s =>
          match parseDate s.utcTime with
          | none => false
          | some t =>
            (match (some "01 Jan 2020, 00:00").bind parseDate with
             | none => true
             | some f => decide (f ≤ t)) &&
            (match (none : Option String).bind parseDate with
             | none => true
             | some u => decide (t ≤ u)))
        [⟨"A", "", "T", "02 Jan 2020, 12:00", "", ""⟩,
         ⟨"B", "", "U", "31 Dec 2019, 12:00", "", ""⟩,
         ⟨"C", "", "V", "bad", "", ""⟩] :=
  (claim_C3_date_filter
      [⟨"A", "", "T", "02 Jan 2020, 12:00", "", ""⟩,
       ⟨"B", "", "U", "31 Dec 2019, 12:00", "", ""⟩,
       ⟨"C", "", "V", "bad", "", ""⟩]
      (some "01 Jan 2020, 00:00") none
      (fun x hx => by
        injection hx with h
        subst h
        exact ⟨by decide, by decide⟩)
      (fun x hx => by cases hx)).2 (Or.inl (by simp))

/-- Claim C4: the ranking operations return entries sorted by count
descending; any two result entries with equal counts appear in the order their
keys were first seen while scanning the filtered event list, for each of the
three key shapes; in particular, with two tracks tied at count three, the top
one ranking entry is the track whose first occurrence appears earlier. -/
theorem claim_C4_rank_order (ss : List Scrobble) (n : Nat)
    (fromDate toDate : Option String) :
    (get_top_tracks ss n fromDate toDate).Pairwise (fun a b => b.2 ≤ a.2) ∧
    (get_top_tracks ss n fromDate toDate).Pairwise (fun a b =>
      b.2 < a.2 ∨ (a.2 = b.2 ∧
        firstIdx (trackKeyList ss fromDate toDate) a.1 <
          firstIdx (trackKeyList ss fromDate toDate) b.1)) ∧
    (get_top_artists ss n fromDate toDate).Pairwise (fun a b =>
      b.2 < a.2 ∨ (a.2 = b.2 ∧
        firstIdx (artistKeyList ss fromDate toDate) a.1 <
          firstIdx (artistKeyList ss fromDate toDate) b.1)) ∧
    (get_top_albums ss n fromDate toDate).Pairwise (fun a b =>
      b.2 < a.2 ∨ (a.2 = b.2 ∧
        firstIdx (albumKeyList ss fromDate toDate) a.1 <
          firstIdx (albumKeyList ss fromDate toDate) b.1)) ∧
    get_top_tracks
      [⟨"X", "", "T1", "", "", ""⟩, ⟨"Y", "", "T2", "", "", ""⟩,
       ⟨"X", "", "T1", "", "", ""⟩, ⟨"Y", "", "T2", "", "", ""⟩,
       ⟨"X", "", "T1", "", "", ""⟩, ⟨"Y", "", "T2", "", "", ""⟩] 1 none none =
      [(("X", "T1"), 3)] :=
  ⟨mostCommon_sorted _ n, mostCommon_stable _ n, mostCommon_stable _ n,
    mostCommon_stable _ n, by decide⟩

/-- Claim C6: for each ranking operation, every reported count is exactly the
number of filtered events whose required key component is non-empty and whose
extracted key matches the entry's key, so events with an empty required
component are excluded and contribute to no key's count. -/
theorem claim_C6_key_exclusion (ss : List Scrobble) (n : Nat)
    (fromDate toDate : Option String) :
    (∀ k c, (k, c) ∈ get_top_artists ss n fromDate toDate →
      c = (filter_scrobbles_by_date ss fromDate toDate).countP
            (fun s => !(s.artist == "") && decide (s.artist = k))) ∧
    (∀ k c, (k, c) ∈ get_top_tracks ss n fromDate toDate →
      c = (filter_scrobbles_by_date ss fromDate toDate).countP
            (fun s => !(s.track == "") && decide ((s.artist, s.track) = k))) ∧
    (∀ k c, (k, c) ∈ get_top_albums ss n fromDate toDate →
      c = (filter_scrobbles_by_date ss fromDate toDate).countP
            (fun s => !(s.album == "") && decide ((s.artist, s.album) = k))) := by
  refine ⟨?_, ?_, ?_⟩
  · intro k c hmem
    exact (mostCommon_count hmem).trans
      (by unfold artistKeyList; exact count_map_filter _ _ _ _)
  · intro k c hmem
    exact (mostCommon_count hmem).trans
      (by unfold trackKeyList; exact count_map_filter _ _ _ _)
  · intro k c hmem
    exact (mostCommon_count hmem).trans
      (by unfold albumKeyList; exact count_map_filter _ _ _ _)

theorem claim_C6_witness :
    (2 : Nat) = (filter_scrobbles_by_date
        [⟨"A", "", "T", "", "", ""⟩, ⟨"A", "", "U", "", "", ""⟩,
         ⟨"", "", "V", "", "", ""⟩] none none).countP
      (fun s => !(s.artist == "") && decide (s.artist = "A")) :=
  (claim_C6_key_exclusion
      [⟨"A", "", "T", "", "", ""⟩, ⟨"A", "", "U", "", "", ""⟩,
       ⟨"", "", "V", "", "", ""⟩] 2 none none).1 "A" 2 (by decide)

/-- Claim C7: for each ranking operation the result length is the minimum of n
and the number of distinct keys among the qualifying events, so it is at most
n and contains every distinct key without padding when n is larger. -/
theorem claim_C7_topn_length (ss : List Scrobble) (n : Nat)
    (fromDate toDate : Option String) :
    (get_top_artists ss n fromDate toDate).length =
        min n (artistKeyList ss fromDate toDate).toFinset.card ∧
    (get_top_tracks ss n fromDate toDate).length =
        min n (trackKeyList ss fromDate toDate).toFinset.card ∧
    (get_top_albums ss n fromDate toDate).length =
        min n (albumKeyList ss fromDate toDate).toFinset.card :=
  ⟨mostCommon_length _ n, mostCommon_length _ n, mostCommon_length _ n⟩

/-- Claim C5 counterexample: on the empty event list the hourly profiler
returns the no-data signal rather than a mapping with the 24 hour keys. -/
theorem claim_C5_counterexample : get_hourly_top 0 [] = none := rfl

/-- Claim C5 as amended: for every non-empty event list the hourly profiler
returns a mapping whose keys are exactly the hour keys 0 to 23 in order, and
an hour with no events has total zero and no top artist or top track entry. -/
theorem claim_C5_hourly_keys (offset : Int) (ss : List Scrobble) (hne : ss ≠ []) :
    ∃ m, get_hourly_top offset ss = some m ∧
      m.map Prod.fst = (List.range 24).map (fun h => toString h) ∧
      ∀ h : Nat, h < 24 →
        ((toString h, hourInfoFor offset ss h) ∈ m ∧
          (hourEvents offset ss h = [] →
            hourInfoFor offset ss h = ⟨0, none, none⟩)) := by
  refine ⟨(List.range 24).map (fun h => (toString h, hourInfoFor offset ss h)), ?_, ?_, ?_⟩
  · rw [get_hourly_top, if_neg (by simp [List.isEmpty_iff, hne])]
  · rw [List.map_map]
    rfl
  · intro h hh
    constructor
    · exact List.mem_map.mpr ⟨h, List.mem_range.mpr hh, rfl⟩
    · intro hempty
      simp only [hourInfoFor, hempty]
      rfl

theorem claim_C5_witness :
    ∃ m, get_hourly_top 0 [⟨"A", "", "T", "01 Jan 2020, 10:30", "", ""⟩] = some m ∧
      m.map Prod.fst = (List.range 24).map (fun h => toString h) ∧
      ∀ h : Nat, h < 24 →
        ((toString h, hourInfoFor 0 [⟨"A", "", "T", "01 Jan 2020, 10:30", "", ""⟩] h) ∈ m ∧
          (hourEvents 0 [⟨"A", "", "T", "01 Jan 2020, 10:30", "", ""⟩] h = [] →
            hourInfoFor 0 [⟨"A", "", "T", "01 Jan 2020, 10:30", "", ""⟩] h =
              ⟨0, none, none⟩)) :=
  claim_C5_hourly_keys 0 [⟨"A", "", "T", "01 Jan 2020, 10:30", "", ""⟩] (by decide)

/-- Claim C9: whenever the peak-day query returns a result, the total is the
number of events matching the artist and track exactly, including events whose
timestamp fails to convert, while the day count counts only the convertible
matching events falling on the returned peak day; hence the count is at most
the total, and the total is the per-day sum plus the number of matching events
that could not be placed in time. -/
theorem claim_C9_peak_day (offset : Int) (ss : List Scrobble) (artist track : String)
    (d : Int) (c tot : Nat)
    (h : get_peak_day_for_track offset ss artist track = some (d, c, tot)) :
    tot = ss.countP (matchesTrack artist track) ∧
    c = (dayListOf offset (ss.filter (matchesTrack artist track))).count d ∧
    c ≤ tot ∧
    tot = (dayListOf offset (ss.filter (matchesTrack artist track))).length +
      (ss.filter (matchesTrack artist track)).countP
        (fun s => (toLocal offset s.utcTime).isNone) := by
  simp only [get_peak_day_for_track] at h
  by_cases h1 : (ss.filter (matchesTrack artist track)).isEmpty
  · rw [if_pos h1] at h
    cases h
  · rw [if_neg h1] at h
    by_cases h2 : (dayListOf offset (ss.filter (matchesTrack artist track))).isEmpty
    · rw [if_pos h2] at h
      cases h
    · rw [if_neg h2] at h
      cases hhd : (mostCommon (dayListOf offset
          (ss.filter (matchesTrack artist track))) 1).head? with
      | none =>
        rw [hhd] at h
        cases h
      | some dc =>
        rw [hhd] at h
        have hinj := Option.some.inj h
        have hd1 : dc.1 = d := congrArg Prod.fst hinj
        have hc1 : dc.2 = c := congrArg (fun p => p.2.1) hinj
        have htot : (ss.filter (matchesTrack artist track)).length = tot :=
          congrArg (fun p => p.2.2) hinj
        have hdc : dc = (d, c) := by
          cases dc
          simp only at hd1 hc1
          rw [hd1, hc1]
        have hmem : (d, c) ∈ mostCommon (dayListOf offset
            (ss.filter (matchesTrack artist track))) 1 := by
          rw [← hdc]
          cases hl : mostCommon (dayListOf offset
              (ss.filter (matchesTrack artist track))) 1 with
          | nil => rw [hl] at hhd; cases hhd
          | cons a l =>
            rw [hl] at hhd
            have : a = dc := Option.some.inj hhd
            rw [← this]
            exact List.mem_cons_self a l
        have hcount := mostCommon_count hmem
        refine ⟨?_, hcount, ?_, ?_⟩
        · rw [← htot]
          exact (List.countP_eq_length_filter _ _).symm
        · calc c = (dayListOf offset (ss.filter (matchesTrack artist track))).count d :=
                hcount
            _ ≤ (dayListOf offset (ss.filter (matchesTrack artist track))).length :=
                List.count_le_length d _
            _ ≤ (ss.filter (matchesTrack artist track)).length :=
                List.length_filterMap_le _ _
            _ = tot := htot
        · have hsum := countP_isSome_add_isNone
            (fun s => (toLocal offset s.utcTime).map localDay)
            (ss.filter (matchesTrack artist track))
          have hlen := length_filterMap_eq_countP
            (fun s => (toLocal offset s.utcTime).map localDay)
            (ss.filter (matchesTrack artist track))
          have hiso : ((ss.filter (matchesTrack artist track)).countP
              (fun s => ((toLocal offset s.utcTime).map localDay).isNone)) =
              ((ss.filter (matchesTrack artist track)).countP
              (fun s => (toLocal offset s.utcTime).isNone)) := by
            refine List.countP_congr ?_
            intro s _
            cases toLocal offset s.utcTime <;> simp
          rw [hiso] at hsum
          unfold dayListOf
          omega

theorem claim_C9_witness :
    (2 : Nat) = List.countP (matchesTrack "A" "T")
        [⟨"A", "", "T", "01 Jan 2020, 10:30", "", ""⟩,
         ⟨"A", "", "T", "bad", "", ""⟩] ∧
    (1 : Nat) = (dayListOf 0 (List.filter (matchesTrack "A" "T")
        [⟨"A", "", "T", "01 Jan 2020, 10:30", "", ""⟩,
         ⟨"A", "", "T", "bad", "", ""⟩])).count 737424 ∧
    (1 : Nat) ≤ 2 ∧
    (2 : Nat) = (dayListOf 0 (List.filter (matchesTrack "A" "T")
        [⟨"A", "", "T", "01 Jan 2020, 10:30", "", ""⟩,
         ⟨"A", "", "T", "bad", "", ""⟩])).length +
      List.countP (fun s => (toLocal 0 s.utcTime).isNone)
        (List.filter (matchesTrack "A" "T")
          ([⟨"A", "", "T", "01 Jan 2020, 10:30", "", ""⟩,
            ⟨"A", "", "T", "bad", "", ""⟩] : List Scrobble)) :=
  claim_C9_peak_day 0
    [⟨"A", "", "T", "01 Jan 2020, 10:30", "", ""⟩,
     ⟨"A", "", "T", "bad", "", ""⟩] "A" "T" 737424 1 2 (by decide)

/-- Claim C10: whenever the hourly profiler returns a mapping, the totals of
the 24 hour slots sum to the number of input events whose timestamp converts
successfully; an unconvertible event contributes to no slot and a convertible
one to exactly one slot. -/
theorem claim_C10_hourly_sum (offset : Int) (ss : List Scrobble)
    (m : List (String × HourInfo)) (h : get_hourly_top offset ss = some m) :
    (m.map (fun e => e.2.total)).sum =
      ss.countP (fun s => (toLocal offset s.utcTime).isSome) := by
  rw [get_hourly_top] at h
  by_cases hne : ss.isEmpty
  · rw [if_pos hne] at h
    cases h
  · rw [if_neg hne] at h
    have hm := Option.some.inj h
    rw [← hm, List.map_map]
    exact sum_hourEvents_length offset ss

theorem claim_C10_witness :
    ((List.map (fun e => e.2.total)
        ((List.range 24).map (fun h =>
          (toString h, hourInfoFor 0 [⟨"A", "", "T", "01 Jan 2020, 10:30", "", ""⟩,
            ⟨"B", "", "U", "bad", "", ""⟩] h)))).sum) =
      List.countP (fun s => (toLocal 0 s.utcTime).isSome)
        ([⟨"A", "", "T", "01 Jan 2020, 10:30", "", ""⟩,
          ⟨"B", "", "U", "bad", "", ""⟩] : List Scrobble) :=
  claim_C10_hourly_sum 0
    [⟨"A", "", "T", "01 Jan 2020, 10:30", "", ""⟩, ⟨"B", "", "U", "bad", "", ""⟩]
    ((List.range 24).map (fun h =>
      (toString h, hourInfoFor 0 [⟨"A", "", "T", "01 Jan 2020, 10:30", "", ""⟩,
        ⟨"B", "", "U", "bad", "", ""⟩] h))) rfl

/-- Claim C8: an event whose timestamp fails to parse is silently excluded
from every time-bucketed computation: removing it changes neither the
top-days-overall result, nor any hourly bucket, nor any per-key streak day
set; yet with no date filter the ranking scan still counts the same event, its
artist key gaining exactly one occurrence. -/
theorem claim_C8_unparsable (offset : Int) (ss1 ss2 : List Scrobble) (s : Scrobble)
    (n : Nat) (hbad : parseDate s.utcTime = none) :
    get_top_days_overall offset (ss1 ++ s :: ss2) n =
        get_top_days_overall offset (ss1 ++ ss2) n ∧
    (∀ h, hourEvents offset (ss1 ++ s :: ss2) h = hourEvents offset (ss1 ++ ss2) h) ∧
    (∀ key, trackDaysOf offset (ss1 ++ s :: ss2) key =
        trackDaysOf offset (ss1 ++ ss2) key) ∧
    (get_top_artists (ss1 ++ s :: ss2) n none none =
        mostCommon (artistKeyList (ss1 ++ s :: ss2) none none) n) ∧
    (s.artist ≠ "" →
      (artistKeyList (ss1 ++ s :: ss2) none none).count s.artist =
        (artistKeyList (ss1 ++ ss2) none none).count s.artist + 1) := by
  have htl : toLocal offset s.utcTime = none := by
    rw [toLocal, hbad]
  have hdays : dayListOf offset (ss1 ++ s :: ss2) = dayListOf offset (ss1 ++ ss2) := by
    simp [dayListOf, List.filterMap_append, List.filterMap_cons, htl]
  refine ⟨?_, ?_, ?_, rfl, ?_⟩
  · simp only [get_top_days_overall, hdays]
    by_cases hne : ss1 ++ ss2 = []
    · obtain ⟨ha, hb⟩ := List.append_eq_nil.mp hne
      subst ha
      subst hb
      simp [dayListOf, htl]
    · have hne2 : ss1 ++ s :: ss2 ≠ [] := by simp
      simp only [List.isEmpty_iff]
      rw [if_neg hne2, if_neg hne]
  · intro h
    simp [hourEvents, List.filter_append, List.filter_cons, htl]
  · intro key
    have hraw : trackDayRaw offset key s = none := by
      rw [trackDayRaw, htl]
    simp [trackDaysOf, List.filterMap_append, List.filterMap_cons, hraw]
  · intro hart
    have hq : (!(s.artist == "")) = true := by simp [hart]
    simp only [artistKeyList]
    have hfil : ∀ l : List Scrobble, filter_scrobbles_by_date l none none = l :=
      fun l => rfl
    rw [hfil, hfil, List.filter_append, List.filter_append, List.filter_cons, hq]
    simp only [if_true, List.map_append, List.map_cons, List.count_append,
      List.count_cons_self]
    omega

theorem claim_C8_witness :
    get_top_days_overall 0
        ([⟨"A", "", "T", "01 Jan 2020, 10:00", "", ""⟩] ++
          ⟨"B", "", "U", "nope", "", ""⟩ ::
            [⟨"C", "", "V", "02 Jan 2020, 11:00", "", ""⟩]) 3 =
      get_top_days_overall 0
        ([⟨"A", "", "T", "01 Jan 2020, 10:00", "", ""⟩] ++
          [⟨"C", "", "V", "02 Jan 2020, 11:00", "", ""⟩]) 3 ∧
    hourEvents 0
        ([⟨"A", "", "T", "01 Jan 2020, 10:00", "", ""⟩] ++
          ⟨"B", "", "U", "nope", "", ""⟩ ::
            [⟨"C", "", "V", "02 Jan 2020, 11:00", "", ""⟩]) 10 =
      hourEvents 0
        ([⟨"A", "", "T", "01 Jan 2020, 10:00", "", ""⟩] ++
          [⟨"C", "", "V", "02 Jan 2020, 11:00", "", ""⟩]) 10 ∧
    trackDaysOf 0
        ([⟨"A", "", "T", "01 Jan 2020, 10:00", "", ""⟩] ++
          ⟨"B", "", "U", "nope", "", ""⟩ ::
            [⟨"C", "", "V", "02 Jan 2020, 11:00", "", ""⟩]) ("A", "T") =
      trackDaysOf 0
        ([⟨"A", "", "T", "01 Jan 2020, 10:00", "", ""⟩] ++
          [⟨"C", "", "V", "02 Jan 2020, 11:00", "", ""⟩]) ("A", "T") ∧
    get_top_artists
        ([⟨"A", "", "T", "01 Jan 2020, 10:00", "", ""⟩] ++
          ⟨"B", "", "U", "nope", "", ""⟩ ::
            [⟨"C", "", "V", "02 Jan 2020, 11:00", "", ""⟩]) 3 none none =
      mostCommon (artistKeyList
        ([⟨"A", "", "T", "01 Jan 2020, 10:00", "", ""⟩] ++
          ⟨"B", "", "U", "nope", "", ""⟩ ::
            [⟨"C", "", "V", "02 Jan 2020, 11:00", "", ""⟩]) none none) 3 ∧
    (artistKeyList
        ([⟨"A", "", "T", "01 Jan 2020, 10:00", "", ""⟩] ++
          ⟨"B", "", "U", "nope", "", ""⟩ ::
            [⟨"C", "", "V", "02 Jan 2020, 11:00", "", ""⟩]) none none).count "B" =
      (artistKeyList
        ([⟨"A", "", "T", "01 Jan 2020, 10:00", "", ""⟩] ++
          [⟨"C", "", "V", "02 Jan 2020, 11:00", "", ""⟩]) none none).count "B" + 1 :=
  ⟨(claim_C8_unparsable 0 [⟨"A", "", "T", "01 Jan 2020, 10:00", "", ""⟩]
      [⟨"C", "", "V", "02 Jan 2020, 11:00", "", ""⟩]
      ⟨"B", "", "U", "nope", "", ""⟩ 3 (by decide)).1,
   (claim_C8_unparsable 0 [⟨"A", "", "T", "01 Jan 2020, 10:00", "", ""⟩]
      [⟨"C", "", "V", "02 Jan 2020, 11:00", "", ""⟩]
      ⟨"B", "", "U", "nope", "", ""⟩ 3 (by decide)).2.1 10,
   (claim_C8_unparsable 0 [⟨"A", "", "T", "01 Jan 2020, 10:00", "", ""⟩]
      [⟨"C", "", "V", "02 Jan 2020, 11:00", "", ""⟩]
      ⟨"B", "", "U", "nope", "", ""⟩ 3 (by decide)).2.2.1 ("A", "T"),
   (claim_C8_unparsable 0 [⟨"A", "", "T", "01 Jan 2020, 10:00", "", ""⟩]
      [⟨"C", "", "V", "02 Jan 2020, 11:00", "", ""⟩]
      ⟨"B", "", "U", "nope", "", ""⟩ 3 (by decide)).2.2.2.1,
   (claim_C8_unparsable 0 [⟨"A", "", "T", "01 Jan 2020, 10:00", "", ""⟩]
      [⟨"C", "", "V", "02 Jan 2020, 11:00", "", ""⟩]
      ⟨"B", "", "U", "nope", "", ""⟩ 3 (by decide)).2.2.2.2 (by decide)⟩
